import Mathlib

/-!
Verification of the qdb-cli client (src/main.py) against its specification.

The embedding models Python strings as lists of characters (`Str`), the
tagged-value decoder `QdbClient.__extract_type_and_value` (including the
behaviour of `re.search` on its fixed pattern), and the read / write /
notification operations with the HTTP server abstracted as an oracle
function.  Python exceptions are modelled with `Except`.
-/

namespace Qdb

/-- Python strings are modelled as lists of characters. -/
abbrev Str := List Char

/-- Model of a Python float value: a finite value (the exact decimal value of
the literal, as a rational), a signed infinity, or nan. -/
inductive PyFloat where
  | finite (q : ℚ)
  | infinite (neg : Bool)
  | nan
deriving DecidableEq, Repr

/-- A native Python scalar value, as produced by the casters in the source's
`typeMap` dictionary (`int`, `float`, `str`, `bool`). -/
inductive PyValue where
  | int (n : ℤ)
  | float (f : PyFloat)
  | str (s : Str)
  | bool (b : Bool)
deriving DecidableEq, Repr

/-- The Python type objects stored as values of the source's `typeMap`
dictionary. -/
inductive PyType where
  | int
  | float
  | str
  | bool
deriving DecidableEq, Repr

/-- Model of the regex class `\w` (ASCII fragment: letters, digits and
underscore; the kind tags in the source are all ASCII). -/
def isWordChar (c : Char) : Bool := c.isAlphanum || c = '_'

/-- Model of Python `str.strip()` as used implicitly by `int()` / `float()`:
surrounding ASCII whitespace is removed. -/
def pyStrip (s : Str) : Str :=
  ((s.dropWhile Char.isWhitespace).reverse.dropWhile Char.isWhitespace).reverse

/-- Numeric value of a digit string (assumed to consist of digits). -/
def digitsNat (s : Str) : ℕ :=
  s.foldl (fun a c => a * 10 + (c.toNat - 48)) 0

/-- Digit-run parser: `some` of the value when the string is a nonempty
run of ASCII decimal digits, else `none`. -/
def digitsVal (s : Str) : Option ℕ :=
  if s ≠ [] ∧ s.all Char.isDigit then some (digitsNat s) else none

/-- Model of Python `int(s)` on a string: strip whitespace, optional sign,
then a nonempty run of decimal digits (underscore separators and non-ASCII
digits are not modelled).  A failure models the raised `ValueError`. -/
def pyInt (s : Str) : Except String ℤ :=
  let t := pyStrip s
  let r : Option ℤ :=
    match t with
    | '+' :: rest => (digitsVal rest).map (fun n => (n : ℤ))
    | '-' :: rest => (digitsVal rest).map (fun n => -(n : ℤ))
    | rest => (digitsVal rest).map (fun n => (n : ℤ))
  match r with
  | some n => .ok n
  | none => .error "ValueError"

/-- Exponent suffix of a Python float literal: optional sign then digits;
combines the mantissa and decimal scale into the final rational. -/
def parseExp (mant : ℚ) (scale : ℤ) (r : Str) : Option ℚ :=
  let p : Bool × Str :=
    match r with
    | '+' :: r2 => (false, r2)
    | '-' :: r2 => (true, r2)
    | r2 => (false, r2)
  match digitsVal p.2 with
  | some e =>
      some (mant * (10 : ℚ) ^ (scale + (if p.1 then -(e : ℤ) else (e : ℤ))))
  | none => none

/-- Decimal part of a Python float literal: `digits [. digits] [e sign digits]`
with at least one digit in the mantissa; returns the exact rational value. -/
def parseDec (s : Str) : Option ℚ :=
  let ip := s.takeWhile Char.isDigit
  let r1 := s.drop ip.length
  let fr : Str × Str :=
    match r1 with
    | '.' :: r => (r.takeWhile Char.isDigit, r.drop (r.takeWhile Char.isDigit).length)
    | r => ([], r)
  if ip = [] ∧ fr.1 = [] then none
  else
    let mant : ℚ := (digitsNat (ip ++ fr.1) : ℚ)
    let scale : ℤ := -(fr.1.length : ℤ)
    match fr.2 with
    | [] => some (mant * (10 : ℚ) ^ scale)
    | 'e' :: r => parseExp mant scale r
    | 'E' :: r => parseExp mant scale r
    | _ => none

/-- Model of Python `float(s)` on a string: strip whitespace, optional sign,
then either `inf` / `infinity` / `nan` (case-insensitive) or a decimal
literal with optional fraction and exponent (underscore separators are not
modelled).  A failure models the raised `ValueError`. -/
def pyFloat (s : Str) : Except String PyFloat :=
  let t := pyStrip s
  let p : Bool × Str :=
    match t with
    | '+' :: r => (false, r)
    | '-' :: r => (true, r)
    | r => (false, r)
  let low := p.2.map Char.toLower
  if low = "inf".toList ∨ low = "infinity".toList then .ok (.infinite p.1)
  else if low = "nan".toList then .ok .nan
  else
    match parseDec p.2 with
    | some q => .ok (.finite (if p.1 then -q else q))
    | none => .error "ValueError"

/-- Calling a Python type object on a string, as the source's
`caster(match.group('value'))` does: `str` and `bool` are total (`bool` of a
string is its nonemptiness test), `int` and `float` may raise. -/
def pyCast : PyType → Str → Except String PyValue
  | .int, s => (pyInt s).map PyValue.int
  | .float, s => (pyFloat s).map PyValue.float
  | .str, s => .ok (PyValue.str s)
  | .bool, s => .ok (PyValue.bool (!s.isEmpty))

/-- Index of the last occurrence of a character in a list, if any. -/
def lastIdxOf (c : Char) : Str → Option ℕ
  | [] => none
  | x :: xs =>
    match lastIdxOf c xs with
    | some n => some (n + 1)
    | none => if x = c then some 0 else none

/-- One attempted match of the source's pattern
`(?P<type>qdb\.\w+)\((?P<value>.+)\)` anchored at the head of the list:
the literal `qdb.`, then a maximal nonempty word-character run immediately
followed by `(`, then a greedy `.+` (one or more non-newline characters)
followed by `)` — i.e. the last `)` up to the first newline, at offset at
least one.  Returns the `type` and `value` groups. -/
def matchAt (cs : Str) : Option (Str × Str) :=
  if cs.take 4 ≠ 'q' :: 'd' :: 'b' :: '.' :: [] then none
  else
    let rest := cs.drop 4
    let run := rest.takeWhile isWordChar
    if run = [] then none
    else
      match rest.dropWhile isWordChar with
      | x :: after =>
        if x ≠ '(' then none
        else
          let pre := after.takeWhile (fun c => c ≠ '\n')
          match lastIdxOf ')' pre with
          | some k =>
            if 1 ≤ k then some ('q' :: 'd' :: 'b' :: '.' :: run, after.take k) else none
          | none => none
      | [] => none

/-- Model of `re.search` for the fixed pattern: try each start position from
the left and return the first (leftmost) match's groups. -/
def pySearch : Str → Option (Str × Str)
  | [] => none
  | c :: cs =>
    match matchAt (c :: cs) with
    | some r => some r
    | none => pySearch cs

/-- The source's `typeMap` dictionary, mapping known tags to the Python type
used as the caster. -/
def typeMap (t : Str) : Option PyType :=
  if t = "qdb.Int".toList then some .int
  else if t = "qdb.Float".toList then some .float
  else if t = "qdb.String".toList then some .str
  else if t = "qdb.EntityReference".toList then some .str
  else if t = "qdb.Bool".toList then some .bool
  else if t = "qdb.Timestamp".toList then some .str
  else if t = "qdb.ConnectionState".toList then some .str
  else if t = "qdb.GarageDoorState".toList then some .str
  else none

/-- `QdbClient.__extract_type_and_value`: search for the pattern; on a match
whose `type` group is a `typeMap` key, apply the caster to the `value` group
(the caster may raise); otherwise return the pair `(None, None)`, modelled
as `ok none`. -/
def extract_type_and_value (s : Str) : Except String (Option (Str × PyValue)) :=
  match pySearch s with
  | some tv =>
    match typeMap tv.1 with
    | some py =>
      match pyCast py tv.2 with
      | .ok pv => .ok (some (tv.1, pv))
      | .error e => .error e
    | none => .ok none
  | none => .ok none

/-- The eight kinds enumerated by the source's `typeMap`. -/
inductive QdbKind where
  | int
  | float
  | string
  | entityReference
  | bool
  | timestamp
  | connectionState
  | garageDoorState
deriving DecidableEq, Repr

/-- Short name of a kind, as it appears inside the tag. -/
def kindShort : QdbKind → Str
  | .int => "Int".toList
  | .float => "Float".toList
  | .string => "String".toList
  | .entityReference => "EntityReference".toList
  | .bool => "Bool".toList
  | .timestamp => "Timestamp".toList
  | .connectionState => "ConnectionState".toList
  | .garageDoorState => "GarageDoorState".toList

/-- Full wire tag of a kind (a `typeMap` key). -/
def kindTag (K : QdbKind) : Str := "qdb.".toList ++ kindShort K

/-- The native Python type each kind is cast to, per the `typeMap`
dictionary. -/
def kindPyType : QdbKind → PyType
  | .int => .int
  | .float => .float
  | .string => .str
  | .entityReference => .str
  | .bool => .bool
  | .timestamp => .str
  | .connectionState => .str
  | .garageDoorState => .str

instance {ε α : Type} [DecidableEq ε] [DecidableEq α] : DecidableEq (Except ε α) := fun x y =>
  match x, y with
  | .ok a, .ok b =>
    if h : a = b then isTrue (by rw [h]) else isFalse (fun hh => h (Except.ok.inj hh))
  | .error a, .error b =>
    if h : a = b then isTrue (by rw [h]) else isFalse (fun hh => h (Except.error.inj hh))
  | .ok _, .error _ => isFalse (fun hh => Except.noConfusion hh)
  | .error _, .ok _ => isFalse (fun hh => Except.noConfusion hh)

/-- The `QdbEntity` dataclass: id, type, display name, and the mapping from
field name to last-read raw value.  The raw-value type is a parameter `α`
(the server's JSON values are opaque to the client); a stored value is
`Option α` because the source stores `value.get("raw")`, which is `None`
when the response omits the `raw` key.  The mapping is an insertion-ordered
association list, like a Python dict. -/
structure QdbEntity (α : Type) where
  eid : Str
  etype : Str
  name : Str
  fields : List (Str × Option α)
deriving DecidableEq, Repr

/-- Construction of a `QdbEntity` from the `(id, type, name)` triple of a
server entity record, as `get_entity` / `get_entities` do: the field mapping
starts empty. -/
def mkEntity {α : Type} (r : Str × Str × Str) : QdbEntity α :=
  ⟨r.1, r.2.1, r.2.2, []⟩

/-- Which lookup the read path issues for a token. -/
inductive ResolveCall where
  | byId (id : Str)
  | byType (etype : Str)
deriving DecidableEq, Repr

/-- The id-vs-type dispatch at the top of `read`: a token containing the
separator character `'-'` is treated as an entity id, otherwise as an
entity type name. -/
def resolveDispatch (token : Str) : ResolveCall :=
  if '-' ∈ token then .byId token else .byType token

/-- The entity list `read` builds before the batched field read:
`get_entity` for an id token (a one-element list), `get_entities` for a
type token.  The server is abstracted as oracles returning the
`(id, type, name)` records of its response. -/
def resolveEntities {α : Type} (token : Str) (getById : Str → Str × Str × Str)
    (getByType : Str → List (Str × Str × Str)) : List (QdbEntity α) :=
  match resolveDispatch token with
  | .byId i => [mkEntity (getById i)]
  | .byType ty => (getByType ty).map mkEntity

/-- The batched read request body: one `(id, field)` descriptor per
(entity, field name) pair, entities outermost. -/
def buildReadReqs {α : Type} (entities : List (QdbEntity α)) (fieldNames : List Str) :
    List (Str × Str) :=
  entities.flatMap fun e => fieldNames.map fun f => (e.eid, f)

/-- Python dict assignment `d[k] = v`: replace the value in place when the
key is present, else append the new pair. -/
def dictInsert {β : Type} : List (Str × β) → Str → β → List (Str × β)
  | [], k, v => [(k, v)]
  | (k', v') :: rest, k, v =>
    if k' = k then (k, v) :: rest else (k', v') :: dictInsert rest k v

/-- One `(entityId, fieldName, value)` triple of the read response;
`raw` is the result of `value.get("raw")`. -/
structure ReadTriple (α : Type) where
  id : Str
  field : Str
  raw : Option α
deriving DecidableEq, Repr

/-- Application of one response triple, as the loop body
`entityById[entity["id"]].fields[entity["field"]] = entity["value"].get("raw")`
does: the dict `entityById` maps each id to the LAST entity of the list
bearing it, and a missing id raises `KeyError`, modelled as `none`. -/
def applyTriple {α : Type} : List (QdbEntity α) → ReadTriple α → Option (List (QdbEntity α))
  | [], _ => none
  | e :: es, t =>
    if es.any (fun x => x.eid = t.id) then (applyTriple es t).map (e :: ·)
    else if e.eid = t.id then
      some ({ e with fields := dictInsert e.fields t.field t.raw } :: es)
    else none

/-- The response loop of `read`: apply the triples in order; the first
unknown entity id aborts with the raised `KeyError`. -/
def applyTriples {α : Type} : List (QdbEntity α) → List (ReadTriple α) → Option (List (QdbEntity α))
  | es, [] => some es
  | es, t :: ts =>
    match applyTriple es t with
    | some es2 => applyTriples es2 ts
    | none => none

/-- `QdbClient.read`: resolve the token to entities, issue the batched
field read (the server is the oracle `dbRead` from request descriptors to
response triples), and populate each entity's field mapping from the
response.  An unknown entity id in the response propagates as an error. -/
def read {α : Type} (token : Str) (fieldNames : List Str)
    (getById : Str → Str × Str × Str) (getByType : Str → List (Str × Str × Str))
    (dbRead : List (Str × Str) → List (ReadTriple α)) :
    Except String (List (QdbEntity α)) :=
  let entities : List (QdbEntity α) := resolveEntities token getById getByType
  match applyTriples entities (dbRead (buildReadReqs entities fieldNames)) with
  | some res => .ok res
  | none => .error "KeyError"

/-- One element of the batched write request: entity id, field name, the
wire `@type` URI and the decoded raw value. -/
structure WriteReq where
  id : Str
  field : Str
  vtype : Str
  raw : PyValue
deriving DecidableEq, Repr

/-- The validation/build loop of `QdbClient.write` over the field mapping
(in mapping order): a wire-string on which the decoder returns
`(None, None)` makes the whole call return `False` (`ok none` here), a
wire-string on which the caster raises propagates the error, and when every
field decodes the full request list is produced. -/
def writeGo (entityId : Str) : List (Str × Str) → Except String (Option (List WriteReq))
  | [] => .ok (some [])
  | (f, v) :: rest =>
    match extract_type_and_value v with
    | .error e => .error e
    | .ok none => .ok none
    | .ok (some tv) =>
      match writeGo entityId rest with
      | .error e => .error e
      | .ok none => .ok none
      | .ok (some reqs) =>
        .ok (some (⟨entityId, f, "type.googleapis.com/".toList ++ tv.1, tv.2⟩ :: reqs))

/-- `QdbClient.write`: validate and build the batched request; only when
every field decodes is a single POST issued (the server is the oracle
`server` from the request list to the per-field `success` flags), and the
result is the conjunction of all acknowledgement flags.  The first
component records the POST body when one was sent (`none` = no network
request was issued). -/
def write (entityId : Str) (fields : List (Str × Str))
    (server : List WriteReq → List Bool) :
    Option (List WriteReq) × Except String Bool :=
  match writeGo entityId fields with
  | .error e => (none, .error e)
  | .ok none => (none, .ok false)
  | .ok (some reqs) => (some reqs, .ok ((server reqs).all (fun b => b)))

/-- Decoder success as a boolean: the wire-string matches the grammar with
a known kind and its literal casts without raising. -/
def decodeOk (v : Str) : Bool :=
  match extract_type_and_value v with
  | .ok (some _) => true
  | _ => false

/-- The single request record of `register_notification`: the token is sent
under the key `id` or `type` according to the separator dispatch. -/
structure NotifRequest where
  id : Option Str
  etype : Option Str
  field : Str
  contextFields : List Str
  notifyOnChange : Bool
deriving DecidableEq, Repr

/-- The request record `register_notification` builds: base fields plus
`id` for a token containing `'-'`, else `type`. -/
def mkNotifReq (token fieldName : Str) (ctx : List Str) (noc : Bool) : NotifRequest :=
  if '-' ∈ token then ⟨some token, none, fieldName, ctx, noc⟩
  else ⟨none, some token, fieldName, ctx, noc⟩

/-- `QdbClient.register_notification`: POST the single-request payload and
report success exactly when the response's `tokens` list (the oracle
`server`'s value) is nonempty. -/
def register_notification (token fieldName : Str) (ctx : List Str) (noc : Bool)
    (server : NotifRequest → List Str) : Bool :=
  !(server (mkNotifReq token fieldName ctx noc)).isEmpty

/-- Observable events of one `listen` invocation. -/
inductive ListenEvent where
  | registerCall
  | banner
  | pollCall
  | sleepCall
  | interrupted
deriving DecidableEq, Repr

/-- The poll loop body, with the external `KeyboardInterrupt` modelled as
arriving at the top of the loop after `k` completed iterations: each
iteration is one `get_notifications` call followed by the fixed-interval
sleep; the interrupt is the only exit. -/
def pollEvents : ℕ → List ListenEvent
  | 0 => [.interrupted]
  | n + 1 => .pollCall :: .sleepCall :: pollEvents n

/-- Result of one `listen` invocation: its event trace and whether it
returned normally (rather than propagating an exception). -/
structure ListenRun where
  events : List ListenEvent
  normalReturn : Bool
deriving DecidableEq, Repr

/-- `QdbClient.listen`: one `register_notification` call; on success, print
the banner and poll until the interrupt, which is swallowed
(`except KeyboardInterrupt: pass`); on failure, return at once — the
source's `if` has no `else`, so nothing further happens. -/
def listen (token fieldName : Str) (ctx : List Str) (noc : Bool)
    (server : NotifRequest → List Str) (interruptAfter : ℕ) : ListenRun :=
  if register_notification token fieldName ctx noc server then
    ⟨.registerCall :: .banner :: pollEvents interruptAfter, true⟩
  else ⟨[.registerCall], true⟩

/-- Declarative reading of the pattern `(?P<type>qdb\.\w+)\((?P<value>.+)\)`
occurring somewhere in the string: a decomposition into an arbitrary
prefix, the literal `qdb.`, a nonempty word-character run, `(`, a nonempty
newline-free value, `)` and an arbitrary suffix. -/
def HasTagMatch (s : Str) : Prop :=
  ∃ a w v b, s = a ++ 'q' :: 'd' :: 'b' :: '.' :: (w ++ '(' :: (v ++ ')' :: b))
    ∧ w ≠ [] ∧ (∀ c ∈ w, isWordChar c = true) ∧ v ≠ [] ∧ (∀ c ∈ v, c ≠ '\n')

/-! Helper lemmas about the regex model. -/

lemma takeWhile_append_of_not {p : Char → Bool} (w : Str) (x : Char) (rest : Str)
    (hw : ∀ c ∈ w, p c = true) (hx : p x = false) :
    (w ++ x :: rest).takeWhile p = w := by
  induction w with
  | nil => simp [List.takeWhile_cons, hx]
  | cons a as ih =>
    have ha : p a = true := hw a (by simp)
    simp only [List.cons_append, List.takeWhile_cons, ha, if_true]
    rw [ih (fun c hc => hw c (by simp [hc]))]

lemma dropWhile_append_of_not {p : Char → Bool} (w : Str) (x : Char) (rest : Str)
    (hw : ∀ c ∈ w, p c = true) (hx : p x = false) :
    (w ++ x :: rest).dropWhile p = x :: rest := by
  induction w with
  | nil => simp [List.dropWhile_cons, hx]
  | cons a as ih =>
    have ha : p a = true := hw a (by simp)
    simp only [List.cons_append, List.dropWhile_cons, ha, if_true]
    exact ih (fun c hc => hw c (by simp [hc]))

lemma lastIdxOf_append_self (c : Char) (l : Str) :
    lastIdxOf c (l ++ [c]) = some l.length := by
  induction l with
  | nil => simp [lastIdxOf]
  | cons x xs ih => simp [lastIdxOf, ih]

lemma lastIdxOf_spec {c : Char} {l : Str} {k : ℕ} (h : lastIdxOf c l = some k) :
    ∃ hk : k < l.length, l.get ⟨k, hk⟩ = c := by
  induction l generalizing k with
  | nil => simp [lastIdxOf] at h
  | cons x xs ih =>
    rw [lastIdxOf] at h
    cases hx : lastIdxOf c xs with
    | some n =>
      rw [hx] at h
      obtain rfl : n + 1 = k := by simpa using h
      obtain ⟨hn, hget⟩ := ih hx
      exact ⟨Nat.succ_lt_succ hn, by simpa using hget⟩
    | none =>
      rw [hx] at h
      by_cases hxc : x = c
      · simp only [hxc, if_true] at h
        obtain rfl : 0 = k := by simpa using h
        exact ⟨by simp, by simpa using hxc⟩
      · simp [hxc] at h

lemma matchAt_encode (w L : Str) (hw : w ≠ []) (hword : ∀ c ∈ w, isWordChar c = true)
    (hL : L ≠ []) (hnl : ∀ c ∈ L, c ≠ '\n') :
    matchAt ('q' :: 'd' :: 'b' :: '.' :: (w ++ '(' :: (L ++ [')']))) =
      some ('q' :: 'd' :: 'b' :: '.' :: w, L) := by
  have hparen : isWordChar '(' = false := by decide
  have htw : (w ++ '(' :: (L ++ [')'])).takeWhile isWordChar = w :=
    takeWhile_append_of_not w '(' (L ++ [')']) hword hparen
  have hdw : (w ++ '(' :: (L ++ [')'])).dropWhile isWordChar = '(' :: (L ++ [')']) :=
    dropWhile_append_of_not w '(' (L ++ [')']) hword hparen
  have hpre : (L ++ [')']).takeWhile (fun c => c ≠ '\n') = L ++ [')'] := by
    refine List.takeWhile_eq_self_iff.mpr ?_
    intro c hc
    rcases List.mem_append.mp hc with h1 | h1
    · simpa using hnl c h1
    · simp at h1
      simp [h1]
  have hlast : lastIdxOf ')' (L ++ [')']) = some L.length := lastIdxOf_append_self ')' L
  have hlen : 1 ≤ L.length := List.length_pos.mpr hL
  simp only [matchAt, List.take, List.drop, hdw, htw, hpre, hlast]
  simp [hw, hlen, List.take_left]

lemma pySearch_cons_of_match {c : Char} {cs : Str} {r : Str × Str}
    (h : matchAt (c :: cs) = some r) : pySearch (c :: cs) = some r := by
  simp [pySearch, h]

lemma typeMap_kindTag (K : QdbKind) : typeMap (kindTag K) = some (kindPyType K) := by
  cases K <;> rfl

lemma kindShort_ne_nil (K : QdbKind) : kindShort K ≠ [] := by
  cases K <;> decide

lemma kindShort_word (K : QdbKind) : ∀ c ∈ kindShort K, isWordChar c = true := by
  cases K <;> decide

lemma kindTag_cons (K : QdbKind) :
    kindTag K ++ '(' :: (L ++ [')']) =
      'q' :: 'd' :: 'b' :: '.' :: (kindShort K ++ '(' :: (L ++ [')'])) := by
  simp [kindTag]

lemma extract_encode (K : QdbKind) (L : Str) (val : PyValue)
    (hL : L ≠ []) (hnl : ∀ c ∈ L, c ≠ '\n')
    (hcast : pyCast (kindPyType K) L = .ok val) :
    extract_type_and_value (kindTag K ++ '(' :: (L ++ [')'])) =
      .ok (some (kindTag K, val)) := by
  have hm : matchAt (kindTag K ++ '(' :: (L ++ [')'])) = some (kindTag K, L) := by
    rw [kindTag_cons]
    have := matchAt_encode (kindShort K) L (kindShort_ne_nil K) (kindShort_word K) hL hnl
    rw [this]
    rw [show ('q' :: 'd' :: 'b' :: '.' :: kindShort K : Str) = kindTag K by simp [kindTag]]
  have hs : pySearch (kindTag K ++ '(' :: (L ++ [')'])) = some (kindTag K, L) := by
    rw [kindTag_cons] at hm ⊢
    exact pySearch_cons_of_match hm
  simp [extract_type_and_value, hs, typeMap_kindTag, hcast]

lemma matchAt_some_decomp {cs : Str} {t v : Str} (h : matchAt cs = some (t, v)) :
    ∃ w b, cs = 'q' :: 'd' :: 'b' :: '.' :: (w ++ '(' :: (v ++ ')' :: b))
      ∧ w ≠ [] ∧ (∀ c ∈ w, isWordChar c = true) ∧ v ≠ [] ∧ (∀ c ∈ v, c ≠ '\n') := by
  rw [matchAt] at h
  by_cases h4 : cs.take 4 = 'q' :: 'd' :: 'b' :: '.' :: []
  · simp only [h4, ne_eq, not_true_eq_false, if_false] at h
    set rest := cs.drop 4 with hrest
    set run := rest.takeWhile isWordChar with hrun
    by_cases hr : run = []
    · simp [hr] at h
    · simp only [hr, if_false] at h
      cases hdw : rest.dropWhile isWordChar with
      | nil => rw [hdw] at h; simp at h
      | cons x after =>
        rw [hdw] at h
        by_cases hx : x = '('
        · simp only [hx, ne_eq, not_true_eq_false, if_false] at h
          set pre := after.takeWhile (fun c => c ≠ '\n') with hpre
          cases hli : lastIdxOf ')' pre with
          | none => rw [hli] at h; simp at h
          | some k =>
            rw [hli] at h
            by_cases hk : 1 ≤ k
            · simp only [hk, if_true, Option.some.injEq, Prod.mk.injEq] at h
              obtain ⟨ht, hv⟩ := h
              obtain ⟨hklt, hget⟩ := lastIdxOf_spec hli
              have hprefix : pre <+: after := List.takeWhile_prefix _
              have hklen : k < after.length := lt_of_lt_of_le hklt hprefix.length_le
              have hgetafter : after.get ⟨k, hklen⟩ = ')' := by
                rw [← hget]
                exact (List.IsPrefix.getElem hprefix hklt).symm
              have hsplit : after = after.take k ++ ')' :: after.drop (k + 1) := by
                have h1 : after.drop k = ')' :: after.drop (k + 1) := by
                  have h2 : after.get ⟨k, hklen⟩ = ')' := hgetafter
                  rw [List.drop_eq_getElem_cons hklen]
                  exact congrArg (fun c => c :: List.drop (k + 1) after) h2
                rw [← h1, List.take_append_drop]
              refine ⟨run, after.drop (k + 1), ?_, hr, ?_, ?_, ?_⟩
              · have hcs : cs = cs.take 4 ++ rest := (List.take_append_drop 4 cs).symm
                have hrest2 : rest = run ++ x :: after := by
                  rw [hrun]
                  conv_lhs => rw [← List.takeWhile_append_dropWhile (p := isWordChar) (l := rest)]
                  rw [hdw]
                rw [hcs, h4, hrest2, hx, ← hv, ← hsplit]
                simp
              · intro c hc
                exact List.mem_takeWhile_imp hc
              · rw [← hv]
                have : (after.take k).length = k := by
                  simp [List.length_take]
                  omega
                intro hnil
                rw [hnil] at this
                simp at this
                omega
              · intro c hc
                rw [← hv] at hc
                have hck : after.take k = pre.take k := by
                  have hpre2 : pre = after.take pre.length :=
                    List.prefix_iff_eq_take.mp hprefix
                  rw [hpre2, List.take_take]
                  congr 1
                  omega
                rw [hck] at hc
                have hcpre : c ∈ pre := List.mem_of_mem_take hc
                have := List.mem_takeWhile_imp (p := fun c => c ≠ '\n') hcpre
                simpa using this
            · simp [hk] at h
        · simp [hx] at h
  · simp [h4] at h

lemma pySearch_some_decomp {s : Str} {t v : Str} (h : pySearch s = some (t, v)) :
    HasTagMatch s := by
  induction s with
  | nil => simp [pySearch] at h
  | cons c cs ih =>
    rw [pySearch] at h
    cases hm : matchAt (c :: cs) with
    | some r =>
      rw [hm] at h
      obtain rfl : r = (t, v) := by simpa using h
      obtain ⟨w, b, hcs, hw, hword, hv, hnl⟩ := matchAt_some_decomp hm
      exact ⟨[], w, v, b, by simpa using hcs, hw, hword, hv, hnl⟩
    | none =>
      rw [hm] at h
      obtain ⟨a, w, v2, b, hcs, hw, hword, hv, hnl⟩ := ih h
      exact ⟨c :: a, w, v2, b, by simp [hcs], hw, hword, hv, hnl⟩

/-! Claim theorems. -/

/-- C1 counterexample: the claim as stated fails. The empty string is a valid
literal for the `String` kind (the native parse `str` accepts it, yielding
the empty string), yet decoding `qdb.String()` yields the invalid result
`(None, None)` instead of `(qdb.String, "")`, because the pattern's `.+`
requires at least one character; likewise the literal `a\nb` is valid for
`String` but `qdb.String(a\nb)` decodes to `(None, None)`, because `.` does
not match a newline. -/
theorem extract_roundtrip_counterexample :
    pyCast (kindPyType .string) [] = .ok (PyValue.str []) ∧
    extract_type_and_value "qdb.String()".toList = .ok none ∧
    extract_type_and_value "qdb.String()".toList ≠
      .ok (some ("qdb.String".toList, PyValue.str [])) ∧
    pyCast (kindPyType .string) "a\nb".toList = .ok (PyValue.str "a\nb".toList) ∧
    extract_type_and_value "qdb.String(a\nb)".toList = .ok none :=
  ⟨rfl, rfl, by decide, rfl, rfl⟩

/-- C1 (amended): field codec round trip. For every supported kind `K`
(`Int`, `Float`, `String`, `EntityReference`, `Bool`, `Timestamp`,
`ConnectionState`, `GarageDoorState`) and every literal `L` that is valid
for `K` — accepted by the native parse of `K`'s type (`Int`→integer,
`Float`→floating point, `String`/`EntityReference`/`Timestamp`/
`ConnectionState`/`GarageDoorState`→string, `Bool`→boolean), and moreover
nonempty and free of newline characters — decoding the string `qdb.K(L)`
yields exactly the pair `(qdb.K, nativeParse(L))`. -/
theorem extract_roundtrip (K : QdbKind) (L : Str) (val : PyValue)
    (hL : L ≠ []) (hnl : ∀ c ∈ L, c ≠ '\n')
    (hcast : pyCast (kindPyType K) L = .ok val) :
    extract_type_and_value (kindTag K ++ '(' :: (L ++ [')'])) =
      .ok (some (kindTag K, val)) :=
  extract_encode K L val hL hnl hcast

/-- C1 witness: the round trip at the concrete kind `Int` and literal `5`. -/
theorem extract_roundtrip_witness :
    (['5'] : Str) ≠ [] ∧
    pyCast (kindPyType .int) ['5'] = .ok (PyValue.int 5) ∧
    extract_type_and_value (kindTag .int ++ '(' :: ((['5'] : Str) ++ [')'])) =
      .ok (some (kindTag .int, PyValue.int 5)) :=
  ⟨by decide, by decide,
    extract_roundtrip .int ['5'] (PyValue.int 5) (by decide) (by decide) (by decide)⟩

/-- C2 counterexample: the claim as stated fails. The string `xqdb.Int(5)y`
is not of the exact form `qdb.<Kind>(<literal>)` spanning the whole string
(it has a leading `x` and the literal does not run to the end), yet decode
returns the pair `(qdb.Int, 5)` rather than `(None, None)`: the source uses
an unanchored `re.search`, so the pattern may match a proper substring. -/
theorem extract_reject_counterexample :
    extract_type_and_value "xqdb.Int(5)y".toList =
        .ok (some ("qdb.Int".toList, PyValue.int 5)) ∧
    extract_type_and_value "xqdb.Int(5)y".toList ≠ .ok none :=
  ⟨rfl, by decide⟩

/-- C2 (amended): decode rejection. For every input string that contains no
substring of the form `qdb.<word-run>(<literal>)` — with a nonempty
word-character run and a nonempty newline-free literal — and for every
input string whose leftmost such match has a `<Kind>` outside the
enumerated known set, decode returns the empty/invalid result
`(None, None)` rather than a kind-value pair. -/
theorem extract_reject (s : Str)
    (h : ¬ HasTagMatch s ∨ ∀ tv, pySearch s = some tv → typeMap tv.1 = none) :
    extract_type_and_value s = .ok none := by
  cases hs : pySearch s with
  | none => simp [extract_type_and_value, hs]
  | some tv =>
    rcases h with hno | hk
    · obtain ⟨t, v⟩ := tv
      exact absurd (pySearch_some_decomp hs) hno
    · simp [extract_type_and_value, hs, hk tv hs]

/-- C2 witness: decode of the concrete pattern-free string `hello` is the
invalid result. -/
theorem extract_reject_witness :
    extract_type_and_value "hello".toList = .ok none :=
  extract_reject "hello".toList
    (Or.inr (fun tv htv => by
      rw [show pySearch "hello".toList = none from rfl] at htv
      exact Option.noConfusion htv))

lemma writeGo_fail (entityId : Str) {fields : List (Str × Str)}
    (h : ∃ p ∈ fields, decodeOk p.2 = false) :
    writeGo entityId fields = .ok none ∨ ∃ e, writeGo entityId fields = .error e := by
  induction fields with
  | nil => simp at h
  | cons p rest ih =>
    obtain ⟨f, v⟩ := p
    obtain ⟨q, hq, hfail⟩ := h
    cases hp : extract_type_and_value v with
    | error e => exact Or.inr ⟨e, by simp [writeGo, hp]⟩
    | ok o =>
      cases o with
      | none => exact Or.inl (by simp [writeGo, hp])
      | some tv =>
        have hqrest : q ∈ rest := by
          rcases List.mem_cons.mp hq with rfl | hr
          · exfalso
            simp [decodeOk, hp] at hfail
          · exact hr
        rcases ih ⟨q, hqrest, hfail⟩ with hrec | ⟨e, hrec⟩
        · exact Or.inl (by simp [writeGo, hp, hrec])
        · exact Or.inr ⟨e, by simp [writeGo, hp, hrec]⟩

/-- C3 counterexample: the claim as stated fails. The wire-string
`qdb.Int(x)` fails to decode (its literal `x` is not accepted by the kind's
native integer parse), but `write` does not return `False`: the source
applies `int` to the matched literal without catching the `ValueError`, so
the call raises instead.  No network request is issued either way. -/
theorem write_decode_failure_counterexample :
    decodeOk "qdb.Int(x)".toList = false ∧
    write "e-1".toList [("a".toList, "qdb.Int(x)".toList)] (fun _ => []) =
      (none, .error "ValueError") ∧
    (write "e-1".toList [("a".toList, "qdb.Int(x)".toList)] (fun _ => [])).2 ≠
      .ok false :=
  ⟨rfl, rfl, by decide⟩

/-- C3 (amended): write validation atomicity. For every entityId and field
mapping, if any field's wire-string fails to decode, `write` issues no
network request — no partial write is sent even when other fields decode
successfully — and the call either returns failure (`False`, when the
offending wire-string fails the grammar or known-kind match) or propagates
the caster's error (when a grammar-matching literal fails its native
parse). -/
theorem write_decode_failure_no_request (entityId : Str) (fields : List (Str × Str))
    (server : List WriteReq → List Bool)
    (h : ∃ p ∈ fields, decodeOk p.2 = false) :
    (write entityId fields server).1 = none ∧
      ((write entityId fields server).2 = .ok false ∨
        ∃ e, (write entityId fields server).2 = .error e) := by
  rcases writeGo_fail entityId h with hgo | ⟨e, hgo⟩
  · exact ⟨by simp [write, hgo], Or.inl (by simp [write, hgo])⟩
  · exact ⟨by simp [write, hgo], Or.inr ⟨e, by simp [write, hgo]⟩⟩

/-- C3 witness: a mapping whose second field is undecodable makes the
concrete `write` call return `False` with no request sent, although its
first field decodes. -/
theorem write_decode_failure_witness :
    (write "e-1".toList
        [("a".toList, "qdb.Int(5)".toList), ("b".toList, "nope".toList)]
        (fun _ => [])).1 = none ∧
      ((write "e-1".toList
          [("a".toList, "qdb.Int(5)".toList), ("b".toList, "nope".toList)]
          (fun _ => [])).2 = .ok false ∨
        ∃ e, (write "e-1".toList
          [("a".toList, "qdb.Int(5)".toList), ("b".toList, "nope".toList)]
          (fun _ => [])).2 = .error e) :=
  write_decode_failure_no_request "e-1".toList
    [("a".toList, "qdb.Int(5)".toList), ("b".toList, "nope".toList)]
    (fun _ => []) (by decide)

/-- C4: write result. When every field decodes (the validation/build loop
produces the request list `reqs`), the single POST is issued and `write`
returns `True` iff every per-field acknowledgement in the server's response
is `true`; a single `false` acknowledgement makes the whole call return
`False`. -/
theorem write_success_iff_all_acks (entityId : Str) (fields : List (Str × Str))
    (server : List WriteReq → List Bool) (reqs : List WriteReq)
    (h : writeGo entityId fields = .ok (some reqs)) :
    (write entityId fields server).1 = some reqs ∧
    (write entityId fields server).2 = .ok ((server reqs).all (fun b => b)) ∧
    ((write entityId fields server).2 = .ok true ↔ ∀ b ∈ server reqs, b = true) := by
  refine ⟨by simp [write, h], by simp [write, h], ?_⟩
  simp [write, h, List.all_eq_true]

/-- C4 witness: a concrete write whose server acknowledges with
`[true, false]` reports failure. -/
theorem write_success_iff_all_acks_witness :
    (write "e-1".toList [("a".toList, "qdb.Int(5)".toList)]
        (fun _ => [true, false])).1 =
      some [⟨"e-1".toList, "a".toList, "type.googleapis.com/qdb.Int".toList,
        PyValue.int 5⟩] ∧
    (write "e-1".toList [("a".toList, "qdb.Int(5)".toList)]
        (fun _ => [true, false])).2 = .ok (([true, false]).all (fun b => b)) ∧
    ((write "e-1".toList [("a".toList, "qdb.Int(5)".toList)]
        (fun _ => [true, false])).2 = .ok true ↔
      ∀ b ∈ ([true, false] : List Bool), b = true) :=
  write_success_iff_all_acks "e-1".toList [("a".toList, "qdb.Int(5)".toList)]
    (fun _ => [true, false])
    [⟨"e-1".toList, "a".toList, "type.googleapis.com/qdb.Int".toList, PyValue.int 5⟩]
    (by decide)

/-- C7: notification registration result. `register_notification` returns
`True` iff the server's response contains at least one subscription token (a
nonempty `tokens` list); zero tokens means failure. -/
theorem register_notification_success_iff (token fieldName : Str) (ctx : List Str)
    (noc : Bool) (server : NotifRequest → List Str) :
    (register_notification token fieldName ctx noc server = true ↔
      server (mkNotifReq token fieldName ctx noc) ≠ []) ∧
    (register_notification token fieldName ctx noc server = false ↔
      server (mkNotifReq token fieldName ctx noc) = []) := by
  constructor <;> simp [register_notification, List.isEmpty_iff]

lemma pollEvents_count_poll (k : ℕ) : (pollEvents k).count .pollCall = k := by
  induction k with
  | zero => rfl
  | succ n ih => simp [pollEvents, List.count_cons, ih]

lemma pollEvents_count_register (k : ℕ) : (pollEvents k).count .registerCall = 0 := by
  induction k with
  | zero => rfl
  | succ n ih => simp [pollEvents, List.count_cons, ih]

lemma pollEvents_getLast (k : ℕ) : (pollEvents k).getLast? = some .interrupted := by
  induction k with
  | zero => rfl
  | succ n ih => rw [pollEvents, List.getLast?_cons_cons]
                 cases n with
                 | zero => rfl
                 | succ m => rw [pollEvents, List.getLast?_cons_cons] at ih ⊢
                             exact ih

/-- C8: listen loop schedule. Every `listen` invocation calls
`register_notification` exactly once; when registration succeeds, it polls
once per elapsed fixed interval (`k` completed poll/sleep iterations before
the external interrupt is observed), the trace ends with the caught
interrupt, and `listen` returns normally — the interrupt is swallowed, not
propagated. -/
theorem listen_schedule (token fieldName : Str) (ctx : List Str) (noc : Bool)
    (server : NotifRequest → List Str) (k : ℕ) :
    (listen token fieldName ctx noc server k).events.count .registerCall = 1 ∧
    (register_notification token fieldName ctx noc server = true →
      (listen token fieldName ctx noc server k).events.count .pollCall = k ∧
      (listen token fieldName ctx noc server k).events.getLast? = some .interrupted ∧
      (listen token fieldName ctx noc server k).normalReturn = true) := by
  by_cases hreg : register_notification token fieldName ctx noc server = true
  · refine ⟨?_, fun _ => ⟨?_, ?_, ?_⟩⟩
    · simp [listen, hreg, List.count_cons, pollEvents_count_register]
    · simp [listen, hreg, List.count_cons, pollEvents_count_poll]
    · simp only [listen, hreg, if_true]
      rw [List.getLast?_cons_cons]
      cases k with
      | zero => rfl
      | succ n => rw [pollEvents, List.getLast?_cons_cons]
                  have := pollEvents_getLast n
                  cases n with
                  | zero => rfl
                  | succ m => rw [pollEvents, List.getLast?_cons_cons] at this ⊢
                              exact this
    · simp [listen, hreg]
  · refine ⟨?_, fun hr => absurd hr hreg⟩
    simp [listen, hreg, List.count_cons]

/-- C8 witness: the schedule at a concrete succeeding registration and two
elapsed intervals. -/
theorem listen_schedule_witness :
    (listen "a-b".toList "f".toList [] false (fun _ => ["t".toList]) 2).events.count
        .registerCall = 1 ∧
    (register_notification "a-b".toList "f".toList [] false
        (fun _ => ["t".toList]) = true →
      (listen "a-b".toList "f".toList [] false
          (fun _ => ["t".toList]) 2).events.count .pollCall = 2 ∧
      (listen "a-b".toList "f".toList [] false
          (fun _ => ["t".toList]) 2).events.getLast? = some .interrupted ∧
      (listen "a-b".toList "f".toList [] false
          (fun _ => ["t".toList]) 2).normalReturn = true) :=
  listen_schedule "a-b".toList "f".toList [] false (fun _ => ["t".toList]) 2

/-- C9 counterexample: the claim as stated fails. With a server returning
zero subscription tokens, registration fails and `listen` returns at once —
its whole trace is the single registration call: no poll is issued (that
part of the claim is right), but no user-facing failure message is reported
either; the source's `if` has no `else` branch, so the abort is silent. -/
theorem listen_registration_failure_counterexample :
    register_notification "a-b".toList "f".toList [] false (fun _ => []) = false ∧
    listen "a-b".toList "f".toList [] false (fun _ => []) 3 =
      ⟨[.registerCall], true⟩ ∧
    (listen "a-b".toList "f".toList [] false (fun _ => []) 3).events.count
        .banner = 0 ∧
    (listen "a-b".toList "f".toList [] false (fun _ => []) 3).events.count
        .pollCall = 0 :=
  ⟨rfl, rfl, rfl, rfl⟩

/-- C9 (amended): listen registration failure path. When
`register_notification` returns `False`, `listen` aborts silently — it
prints nothing (in particular no poll-loop banner and no failure message),
never enters the poll loop (`get_notifications` is called zero times), and
returns normally. -/
theorem listen_registration_failure (token fieldName : Str) (ctx : List Str)
    (noc : Bool) (server : NotifRequest → List Str) (k : ℕ)
    (h : register_notification token fieldName ctx noc server = false) :
    (listen token fieldName ctx noc server k).events = [.registerCall] ∧
    (listen token fieldName ctx noc server k).events.count .pollCall = 0 ∧
    (listen token fieldName ctx noc server k).events.count .banner = 0 ∧
    (listen token fieldName ctx noc server k).normalReturn = true := by
  simp [listen, h]

/-- C9 witness: the silent abort at a concrete failing registration. -/
theorem listen_registration_failure_witness :
    (listen "x-y".toList "g".toList [] true (fun _ => []) 5).events =
      [.registerCall] ∧
    (listen "x-y".toList "g".toList [] true (fun _ => []) 5).events.count
        .pollCall = 0 ∧
    (listen "x-y".toList "g".toList [] true (fun _ => []) 5).events.count
        .banner = 0 ∧
    (listen "x-y".toList "g".toList [] true (fun _ => []) 5).normalReturn = true :=
  listen_registration_failure "x-y".toList "g".toList [] true (fun _ => []) 5
    (by decide)

lemma applyTriple_length {α : Type} {es es' : List (QdbEntity α)} {t : ReadTriple α}
    (h : applyTriple es t = some es') : es'.length = es.length := by
  induction es generalizing es' with
  | nil => simp [applyTriple] at h
  | cons e es ih =>
    rw [applyTriple] at h
    by_cases hany : es.any (fun x => x.eid = t.id)
    · rw [if_pos hany] at h
      cases h2 : applyTriple es t with
      | none => rw [h2] at h; simp at h
      | some es2 =>
        rw [h2] at h
        obtain rfl : e :: es2 = es' := by simpa using h
        simp [ih h2]
    · rw [if_neg hany] at h
      by_cases heid : e.eid = t.id
      · rw [if_pos heid] at h
        obtain rfl := Option.some.inj h
        simp
      · rw [if_neg heid] at h
        exact absurd h (by simp)

lemma applyTriple_eids {α : Type} {es es' : List (QdbEntity α)} {t : ReadTriple α}
    (h : applyTriple es t = some es') :
    es'.map QdbEntity.eid = es.map QdbEntity.eid := by
  induction es generalizing es' with
  | nil => simp [applyTriple] at h
  | cons e es ih =>
    rw [applyTriple] at h
    by_cases hany : es.any (fun x => x.eid = t.id)
    · rw [if_pos hany] at h
      cases h2 : applyTriple es t with
      | none => rw [h2] at h; simp at h
      | some es2 =>
        rw [h2] at h
        obtain rfl : e :: es2 = es' := by simpa using h
        simp [ih h2]
    · rw [if_neg hany] at h
      by_cases heid : e.eid = t.id
      · rw [if_pos heid] at h
        obtain rfl := Option.some.inj h
        simp
      · rw [if_neg heid] at h
        exact absurd h (by simp)

lemma applyTriples_length {α : Type} {es es' : List (QdbEntity α)}
    {ts : List (ReadTriple α)} (h : applyTriples es ts = some es') :
    es'.length = es.length := by
  induction ts generalizing es with
  | nil => obtain rfl := Option.some.inj (by simpa [applyTriples] using h); rfl
  | cons t ts ih =>
    rw [applyTriples] at h
    cases h2 : applyTriple es t with
    | none => rw [h2] at h; simp at h
    | some es2 =>
      rw [h2] at h
      rw [ih h, applyTriple_length h2]

lemma applyTriple_none_of_not_mem {α : Type} {es : List (QdbEntity α)}
    {t : ReadTriple α} (h : t.id ∉ es.map QdbEntity.eid) : applyTriple es t = none := by
  induction es with
  | nil => rfl
  | cons e es ih =>
    have he : e.eid ≠ t.id := fun hc => h (by simp [hc])
    have hes : t.id ∉ es.map QdbEntity.eid := fun hc => h (by simp [hc])
    have hany : es.any (fun x => x.eid = t.id) = false := by
      simp only [List.any_eq_false]
      intro x hx hc
      exact hes (List.mem_map.mpr ⟨x, hx, of_decide_eq_true hc⟩)
    rw [applyTriple, hany]
    simp [he, ih hes]

lemma applyTriples_none_of_bad {α : Type} {es : List (QdbEntity α)}
    {ts : List (ReadTriple α)}
    (h : ∃ t ∈ ts, t.id ∉ es.map QdbEntity.eid) : applyTriples es ts = none := by
  induction ts generalizing es with
  | nil => simp at h
  | cons t0 ts ih =>
    obtain ⟨t, ht, hbad⟩ := h
    rcases List.mem_cons.mp ht with rfl | hts
    · rw [applyTriples, applyTriple_none_of_not_mem hbad]
    · rw [applyTriples]
      cases h0 : applyTriple es t0 with
      | none => rfl
      | some es2 =>
        exact ih ⟨t, hts, by rw [applyTriple_eids h0]; exact hbad⟩

/-- C5: resolver dispatch. For every token, `read` routes to the
single-entity (get-by-id) lookup and resolves a one-element entity sequence
iff the token contains the entity-id separator character `'-'`; otherwise
it routes to the get-by-type lookup and resolves all entities of that type
(an empty sequence when none match, not an error).  When the read call
succeeds, the returned sequence has exactly the resolved length. -/
theorem read_dispatch_spec {α : Type} (token : Str) (fieldNames : List Str)
    (getById : Str → Str × Str × Str) (getByType : Str → List (Str × Str × Str))
    (dbRead : List (Str × Str) → List (ReadTriple α)) :
    ((resolveDispatch token = .byId token ∧
        (@resolveEntities α token getById getByType).length = 1) ↔ '-' ∈ token) ∧
    ('-' ∈ token →
      @resolveEntities α token getById getByType = [mkEntity (getById token)]) ∧
    ('-' ∉ token →
      resolveDispatch token = .byType token ∧
      @resolveEntities α token getById getByType = (getByType token).map mkEntity) ∧
    (∀ res, read token fieldNames getById getByType dbRead = .ok res →
      res.length = (@resolveEntities α token getById getByType).length) := by
  refine ⟨?_, ?_, ?_, ?_⟩
  · constructor
    · rintro ⟨hd, _⟩
      by_contra hm
      rw [resolveDispatch, if_neg hm] at hd
      exact ResolveCall.noConfusion hd
    · intro hm
      refine ⟨by rw [resolveDispatch, if_pos hm], ?_⟩
      simp [resolveEntities, resolveDispatch, hm]
  · intro hm
    simp [resolveEntities, resolveDispatch, hm]
  · intro hm
    refine ⟨by rw [resolveDispatch, if_neg hm], ?_⟩
    simp [resolveEntities, resolveDispatch, hm]
  · intro res hres
    rw [read] at hres
    cases happ : applyTriples (@resolveEntities α token getById getByType)
        (dbRead (buildReadReqs (@resolveEntities α token getById getByType)
          fieldNames)) with
    | none => rw [happ] at hres; exact absurd hres (by simp)
    | some r =>
      rw [happ] at hres
      obtain rfl : r = res := by simpa using hres
      exact applyTriples_length happ

/-- C5 witness: both dispatch branches at the literal tokens `sensor-42`
(get-by-id, one entity) and `TemperatureSensor` (get-by-type). -/
theorem read_dispatch_spec_witness :
    ((resolveDispatch "sensor-42".toList = .byId "sensor-42".toList ∧
        (@resolveEntities ℕ "sensor-42".toList
          (fun s => (s, "T".toList, "N".toList)) (fun _ => [])).length = 1) ↔
      '-' ∈ "sensor-42".toList) ∧
    ('-' ∉ "TemperatureSensor".toList →
      resolveDispatch "TemperatureSensor".toList =
        .byType "TemperatureSensor".toList) := by
  constructor
  · exact (read_dispatch_spec "sensor-42".toList []
      (fun s => (s, "T".toList, "N".toList)) (fun _ => []) (fun _ => [])).1
  · intro hm
    exact ((read_dispatch_spec "TemperatureSensor".toList []
      (fun s => (s, "T".toList, "N".toList)) (fun _ => [])
      (fun _ => ([] : List (ReadTriple ℕ)))).2.2.1 hm).1

/-- C10: read's per-triple entity lookup is partial. If the server's read
response contains a triple whose entity id is not among the entities
resolved for this call, `read` raises the unhandled `KeyError` from the
`entityById` dict lookup — it neither ignores the extra triple nor returns
the resolved entities. -/
theorem read_unknown_id_error {α : Type} (token : Str) (fieldNames : List Str)
    (getById : Str → Str × Str × Str) (getByType : Str → List (Str × Str × Str))
    (dbRead : List (Str × Str) → List (ReadTriple α))
    (h : ∃ t ∈ dbRead (buildReadReqs (@resolveEntities α token getById getByType)
        fieldNames),
      t.id ∉ (@resolveEntities α token getById getByType).map QdbEntity.eid) :
    read token fieldNames getById getByType dbRead = .error "KeyError" := by
  rw [read, applyTriples_none_of_bad h]

/-- C10 witness: a concrete response triple for the unknown id `zz` makes
the read call fail. -/
theorem read_unknown_id_error_witness :
    read "a-b".toList ["f".toList] (fun s => (s, "T".toList, "N".toList))
        (fun _ => []) (fun _ => [(⟨"zz".toList, "f".toList, none⟩ : ReadTriple ℕ)]) =
      .error "KeyError" :=
  read_unknown_id_error "a-b".toList ["f".toList]
    (fun s => (s, "T".toList, "N".toList)) (fun _ => [])
    (fun _ => [(⟨"zz".toList, "f".toList, none⟩ : ReadTriple ℕ)]) (by decide)

lemma dictInsert_not_mem_append {β : Type} {d : List (Str × β)} {k : Str} {v : β}
    (h : k ∉ d.map Prod.fst) : dictInsert d k v = d ++ [(k, v)] := by
  induction d with
  | nil => rfl
  | cons p d ih =>
    obtain ⟨k2, v2⟩ := p
    have hk : k2 ≠ k := fun hc => h (List.mem_cons.mpr (Or.inl hc.symm))
    rw [dictInsert, if_neg hk, ih (fun hc => h (List.mem_cons.mpr (Or.inr hc)))]
    rfl

lemma foldl_dictInsert_eq_append {β : Type} {ps : List (Str × β)} {d : List (Str × β)}
    (h : ∀ k ∈ ps.map Prod.fst, k ∉ d.map Prod.fst) (hnd : (ps.map Prod.fst).Nodup) :
    ps.foldl (fun acc p => dictInsert acc p.1 p.2) d = d ++ ps := by
  induction ps generalizing d with
  | nil => simp
  | cons p ps ih =>
    rw [List.map_cons, List.nodup_cons] at hnd
    rw [List.foldl_cons,
      dictInsert_not_mem_append (h p.1 (List.mem_cons.mpr (Or.inl rfl)))]
    rw [ih ?keys hnd.2]
    · simp
    case keys =>
      intro k hk
      simp only [List.map_append, List.mem_append]
      rintro (hd | hone)
      · exact h k (List.mem_cons.mpr (Or.inr hk)) hd
      · exact hnd.1 (List.mem_singleton.mp hone ▸ hk)

lemma filtered_fields_nodup {α : Type} {ts : List (ReadTriple α)}
    (h : (ts.map fun tr => (tr.id, tr.field)).Nodup) (x : Str) :
    ((ts.filter fun tr => tr.id = x).map fun tr => tr.field).Nodup := by
  induction ts with
  | nil => simp
  | cons t ts ih =>
    rw [List.map_cons, List.nodup_cons] at h
    rw [List.filter_cons]
    by_cases hid : t.id = x
    · rw [if_pos (by simp [hid])]
      rw [List.map_cons, List.nodup_cons]
      refine ⟨?_, ih h.2⟩
      intro hmem
      obtain ⟨tr, htr, hfe⟩ := List.mem_map.mp hmem
      obtain ⟨htr2, hq⟩ := List.mem_filter.mp htr
      have hq2 : tr.id = x := of_decide_eq_true hq
      refine h.1 (List.mem_map.mpr ⟨tr, htr2, ?_⟩)
      rw [hq2, hid, hfe]
    · rw [if_neg (by simp [hid])]
      exact ih h.2

/-- One response triple's effect on one entity, when it applies: insert the
`(field, raw)` pair into the entity whose id matches, leave others alone. -/
def triApply {α : Type} (t : ReadTriple α) (e : QdbEntity α) : QdbEntity α :=
  if e.eid = t.id then { e with fields := dictInsert e.fields t.field t.raw } else e

lemma applyTriple_eq_map {α : Type} {es : List (QdbEntity α)} {t : ReadTriple α}
    (hnd : (es.map QdbEntity.eid).Nodup) (hmem : t.id ∈ es.map QdbEntity.eid) :
    applyTriple es t = some (es.map (triApply t)) := by
  induction es with
  | nil => simp at hmem
  | cons e es ih =>
    rw [List.map_cons, List.nodup_cons] at hnd
    obtain ⟨hhead, htail⟩ := hnd
    rw [List.map_cons] at hmem
    rcases List.mem_cons.mp hmem with heq | hmem2
    · have htes : ∀ x ∈ es, ¬ x.eid = t.id := fun x hx hc =>
        hhead (List.mem_map.mpr ⟨x, hx, hc.trans heq⟩)
      have hany : es.any (fun x => x.eid = t.id) = false := by
        simp only [List.any_eq_false, decide_eq_true_eq]
        exact htes
      rw [applyTriple, if_neg (by rw [hany]; exact Bool.false_ne_true)]
      rw [if_pos heq.symm, List.map_cons]
      congr 2
      · rw [triApply, if_pos heq.symm]
      · rw [List.map_congr_left (g := id)
          (fun x hx => by rw [triApply, if_neg (htes x hx)]; rfl), List.map_id]
    · have hne : e.eid ≠ t.id := fun hc => hhead (hc ▸ hmem2)
      have hany : es.any (fun x => x.eid = t.id) = true := by
        simp only [List.any_eq_true, decide_eq_true_eq]
        obtain ⟨x, hx, hxe⟩ := List.mem_map.mp hmem2
        exact ⟨x, hx, hxe⟩
      rw [applyTriple, if_pos hany, ih htail hmem2, List.map_cons]
      rw [show triApply t e = e from by rw [triApply, if_neg hne]]
      rfl

/-- Cumulative effect of the response loop on one entity: its field dict
after all triples bearing its id have been inserted, in response order. -/
def entityFold {α : Type} (ts : List (ReadTriple α)) (e : QdbEntity α) : QdbEntity α :=
  { e with
    fields := List.foldl (fun acc tr => dictInsert acc tr.field tr.raw) e.fields
      (ts.filter fun tr => tr.id = e.eid) }

lemma entityFold_nil {α : Type} (e : QdbEntity α) : entityFold [] e = e := by
  cases e
  rfl

lemma entityFold_cons_self {α : Type} {t : ReadTriple α} (ts : List (ReadTriple α))
    (e : QdbEntity α) (h : e.eid = t.id) :
    entityFold (t :: ts) e = entityFold ts (triApply t e) := by
  rw [triApply, if_pos h]
  show QdbEntity.mk e.eid e.etype e.name
      (List.foldl (fun acc tr => dictInsert acc tr.field tr.raw) e.fields
        ((t :: ts).filter fun tr => tr.id = e.eid)) =
    QdbEntity.mk e.eid e.etype e.name
      (List.foldl (fun acc tr => dictInsert acc tr.field tr.raw)
        (dictInsert e.fields t.field t.raw) (ts.filter fun tr => tr.id = e.eid))
  rw [List.filter_cons, if_pos (by simpa using h.symm), List.foldl_cons]

lemma entityFold_cons_other {α : Type} {t : ReadTriple α} (ts : List (ReadTriple α))
    (e : QdbEntity α) (h : ¬ e.eid = t.id) :
    entityFold (t :: ts) e = entityFold ts (triApply t e) := by
  rw [triApply, if_neg h]
  show QdbEntity.mk e.eid e.etype e.name
      (List.foldl (fun acc tr => dictInsert acc tr.field tr.raw) e.fields
        ((t :: ts).filter fun tr => tr.id = e.eid)) =
    QdbEntity.mk e.eid e.etype e.name
      (List.foldl (fun acc tr => dictInsert acc tr.field tr.raw) e.fields
        (ts.filter fun tr => tr.id = e.eid))
  rw [List.filter_cons, if_neg (by simpa using fun hc => h hc.symm)]

lemma triApply_eid {α : Type} (t : ReadTriple α) (e : QdbEntity α) :
    (triApply t e).eid = e.eid := by
  rw [triApply]
  by_cases h : e.eid = t.id
  · rw [if_pos h]
  · rw [if_neg h]

lemma applyTriples_eq_map {α : Type} {es : List (QdbEntity α)} {ts : List (ReadTriple α)}
    (hnd : (es.map QdbEntity.eid).Nodup)
    (hall : ∀ t ∈ ts, t.id ∈ es.map QdbEntity.eid) :
    applyTriples es ts = some (es.map (entityFold ts)) := by
  induction ts generalizing es with
  | nil =>
    rw [applyTriples]
    rw [List.map_congr_left (g := id) (fun e _ => entityFold_nil e), List.map_id]
  | cons t ts ih =>
    rw [applyTriples, applyTriple_eq_map hnd (hall t (List.mem_cons.mpr (Or.inl rfl)))]
    show applyTriples (es.map (triApply t)) ts = some (es.map (entityFold (t :: ts)))
    have heids : (es.map (triApply t)).map QdbEntity.eid = es.map QdbEntity.eid := by
      rw [List.map_map]
      exact List.map_congr_left (fun e _ => triApply_eid t e)
    rw [ih (by rw [heids]; exact hnd)
      (fun t2 ht2 => by rw [heids]; exact hall t2 (List.mem_cons.mpr (Or.inr ht2)))]
    congr 1
    rw [List.map_map]
    refine List.map_congr_left ?_
    intro e _
    show entityFold ts (triApply t e) = entityFold (t :: ts) e
    by_cases h : e.eid = t.id
    · exact (entityFold_cons_self ts e h).symm
    · exact (entityFold_cons_other ts e h).symm

lemma resolveEntities_fields_nil {α : Type} {token : Str}
    {getById : Str → Str × Str × Str} {getByType : Str → List (Str × Str × Str)}
    {e : QdbEntity α} (h : e ∈ @resolveEntities α token getById getByType) :
    e.fields = [] := by
  unfold resolveEntities at h
  split at h
  · obtain rfl : e = mkEntity _ := by simpa using h
    rfl
  · obtain ⟨r, _, rfl⟩ := List.mem_map.mp h
    rfl

lemma forall2_map_self {α β : Type} {R : β → α → Prop} {g : α → β} {l : List α}
    (h : ∀ e ∈ l, R (g e) e) : List.Forall₂ R (l.map g) l := by
  induction l with
  | nil => exact List.Forall₂.nil
  | cons a l ih =>
    exact List.Forall₂.cons (h a (by simp)) (ih (fun e he => h e (by simp [he])))

/-- C6: read field population. For every read call (with distinct resolved
entity ids, response triples addressing only resolved entities — an unknown
id instead raises, see the C10 theorem — and no duplicate (id, field) pair
in the response), each returned entity's `fields` mapping contains exactly
the `(fieldName, value.raw)` pairs that the server's response lists for
that entity's id, with the values taken verbatim from the response's `raw`
field and no other keys; an (entity, field) pair omitted from the response
is silently left absent from the mapping. -/
theorem read_fields_population {α : Type} (token : Str) (fieldNames : List Str)
    (getById : Str → Str × Str × Str) (getByType : Str → List (Str × Str × Str))
    (dbRead : List (Str × Str) → List (ReadTriple α)) (resp : List (ReadTriple α))
    (hresp : dbRead (buildReadReqs (@resolveEntities α token getById getByType)
      fieldNames) = resp)
    (hnd : ((@resolveEntities α token getById getByType).map QdbEntity.eid).Nodup)
    (hids : ∀ t ∈ resp,
      t.id ∈ (@resolveEntities α token getById getByType).map QdbEntity.eid)
    (hkeys : (resp.map fun t => (t.id, t.field)).Nodup) :
    ∃ res, read token fieldNames getById getByType dbRead = .ok res ∧
      List.Forall₂ (fun e2 e =>
        e2.eid = e.eid ∧ e2.etype = e.etype ∧ e2.name = e.name ∧
        ∀ f r, ((f, r) ∈ e2.fields ↔
          ∃ t ∈ resp, t.id = e.eid ∧ t.field = f ∧ t.raw = r))
        res (@resolveEntities α token getById getByType) := by
  refine ⟨(@resolveEntities α token getById getByType).map (entityFold resp), ?_, ?_⟩
  · rw [read, hresp, applyTriples_eq_map hnd hids]
  · refine forall2_map_self ?_
    intro e he
    have hf0 : e.fields = [] := resolveEntities_fields_nil he
    refine ⟨rfl, rfl, rfl, ?_⟩
    intro f r
    have hfields : (entityFold resp e).fields =
        (resp.filter fun tr => tr.id = e.eid).map (fun tr => (tr.field, tr.raw)) := by
      show List.foldl (fun acc tr => dictInsert acc tr.field tr.raw) e.fields
          (resp.filter fun tr => tr.id = e.eid) = _
      rw [hf0]
      rw [show (List.foldl (fun acc tr => dictInsert acc tr.field tr.raw)
            ([] : List (Str × Option α)) (resp.filter fun tr => tr.id = e.eid)) =
          List.foldl (fun acc p => dictInsert acc p.1 p.2) []
            ((resp.filter fun tr => tr.id = e.eid).map fun tr => (tr.field, tr.raw))
        from (List.foldl_map (fun tr => (tr.field, tr.raw))
          (fun acc p => dictInsert acc p.1 p.2)
          (resp.filter fun tr => tr.id = e.eid) []).symm]
      rw [foldl_dictInsert_eq_append ?keysnil ?nodupkeys]
      · rw [List.nil_append]
      case keysnil =>
        intro k _ hc
        rw [List.map_nil] at hc
        exact List.not_mem_nil k hc
      case nodupkeys =>
        rw [List.map_map]
        exact filtered_fields_nodup hkeys e.eid
    rw [hfields]
    constructor
    · intro hmem
      obtain ⟨tr, htr, htreq⟩ := List.mem_map.mp hmem
      obtain ⟨htr2, hq⟩ := List.mem_filter.mp htr
      exact ⟨tr, htr2, of_decide_eq_true hq,
        congrArg Prod.fst htreq, congrArg Prod.snd htreq⟩
    · rintro ⟨tr, htr, hid, hfe, hre⟩
      exact List.mem_map.mpr
        ⟨tr, List.mem_filter.mpr ⟨htr, by simpa using hid⟩, by rw [hfe, hre]⟩

/-- C6 witness: a concrete read of `temperature` and `status` on entity
`a-b`, the server answering both with raw values taken verbatim. -/
theorem read_fields_population_witness :
    ∃ res, read "a-b".toList ["temperature".toList, "status".toList]
        (fun s => (s, "T".toList, "N".toList)) (fun _ => [])
        (fun _ => [(⟨"a-b".toList, "temperature".toList, some 1⟩ : ReadTriple ℕ),
          ⟨"a-b".toList, "status".toList, some 2⟩]) = .ok res ∧
      List.Forall₂ (fun e2 e =>
        e2.eid = e.eid ∧ e2.etype = e.etype ∧ e2.name = e.name ∧
        ∀ f r, ((f, r) ∈ e2.fields ↔
          ∃ t ∈ [(⟨"a-b".toList, "temperature".toList, some 1⟩ : ReadTriple ℕ),
            ⟨"a-b".toList, "status".toList, some 2⟩],
            t.id = e.eid ∧ t.field = f ∧ t.raw = r))
        res (@resolveEntities ℕ "a-b".toList
          (fun s => (s, "T".toList, "N".toList)) (fun _ => [])) :=
  read_fields_population "a-b".toList ["temperature".toList, "status".toList]
    (fun s => (s, "T".toList, "N".toList)) (fun _ => [])
    (fun _ => [(⟨"a-b".toList, "temperature".toList, some 1⟩ : ReadTriple ℕ),
      ⟨"a-b".toList, "status".toList, some 2⟩])
    [(⟨"a-b".toList, "temperature".toList, some 1⟩ : ReadTriple ℕ),
      ⟨"a-b".toList, "status".toList, some 2⟩]
    rfl (by decide) (by decide) (by decide)

end Qdb
